import Mathlib

/-!
Verification of the idempotent-invocation and result-cache subsystem of
temporal-mcp: the argument canonicalizer and cache key (Go `json.Marshal`
of a string map, hex-encoded), the FNV-1 based workflow-id hash
(`cmd/temporal-mcp/hash_args.go`), the SQLite-backed result cache
(`internal/tool` `CacheClient.Get/Set/Clear`), the execution-policy
selection in `registerWorkflowTool`, and the history redactor
(`cmd/temporal-mcp/sanitize_history_event.go`).

Strings are modelled as Lean `String` (sequences of unicode scalar values);
Go byte slices as `List Nat` with each element below 256.  Go maps
(`map[string]string`) are modelled by their canonical representation: an
association list strictly sorted by key, which is exactly the key order
`json.Marshal` serializes.  Wall-clock time is modelled as an integer
number of seconds, matching the `created_at` column of the cache.
-/

/-- Hexadecimal digit character, lowercase, as produced by Go `%x` formatting. -/
def hexDigitChar (n : Nat) : Char :=
  if n < 10 then Char.ofNat (48 + n) else Char.ofNat (87 + n)

/-- Numeric value of a lowercase hexadecimal digit character. -/
def hexDigitVal (c : Char) : Option Nat :=
  if 48 ≤ c.toNat ∧ c.toNat ≤ 57 then some (c.toNat - 48)
  else if 97 ≤ c.toNat ∧ c.toNat ≤ 102 then some (c.toNat - 87)
  else none

/-- Go `fmt.Sprintf("%x", bytes)`: two lowercase hex digits per byte. -/
def hexEncode (bytes : List Nat) : List Char :=
  bytes.flatMap (fun b => [hexDigitChar (b / 16), hexDigitChar (b % 16)])

/-- UTF-8 encoding of one unicode scalar value (Go strings hold UTF-8 bytes). -/
def utf8EncodeChar (c : Char) : List Nat :=
  if c.toNat < 128 then [c.toNat]
  else if c.toNat < 2048 then [192 + c.toNat / 64, 128 + c.toNat % 64]
  else if c.toNat < 65536 then
    [224 + c.toNat / 4096, 128 + c.toNat / 64 % 64, 128 + c.toNat % 64]
  else
    [240 + c.toNat / 262144, 128 + c.toNat / 4096 % 64, 128 + c.toNat / 64 % 64,
      128 + c.toNat % 64]

/-- UTF-8 encoding of a character sequence. -/
def utf8Encode (s : List Char) : List Nat := s.flatMap utf8EncodeChar

/-- The FNV-1 32-bit offset basis used by Go `hash/fnv.New32`. -/
def fnvOffset : Nat := 2166136261

/-- The FNV-1 32-bit prime used by Go `hash/fnv.New32`. -/
def fnvPrime : Nat := 16777619

/-- One step of the FNV-1 32-bit hash: multiply by the prime modulo 2^32,
then xor with the next byte. -/
def fnvStep (h b : Nat) : Nat := (h * fnvPrime) % 4294967296 ^^^ b

/-- FNV-1 32-bit digest of a byte stream, as produced by Go `fnv.New32`
after writing the bytes in order. -/
def fnv32 (bytes : List Nat) : Nat := bytes.foldl fnvStep fnvOffset

/-- Escaping of one character inside a JSON string literal, as performed by
Go `encoding/json` with its default (HTML-escaping) encoder. -/
def escapeChar (c : Char) : List Char :=
  if c = '"' then ['\\', '"']
  else if c = '\\' then ['\\', '\\']
  else if c = '\n' then ['\\', 'n']
  else if c = '\r' then ['\\', 'r']
  else if c = '\t' then ['\\', 't']
  else if c.toNat < 32 then
    ['\\', 'u', '0', '0', hexDigitChar (c.toNat / 16), hexDigitChar (c.toNat % 16)]
  else if c = '<' then ['\\', 'u', '0', '0', '3', 'c']
  else if c = '>' then ['\\', 'u', '0', '0', '3', 'e']
  else if c = '&' then ['\\', 'u', '0', '0', '2', '6']
  else if c.toNat = 8232 then ['\\', 'u', '2', '0', '2', '8']
  else if c.toNat = 8233 then ['\\', 'u', '2', '0', '2', '9']
  else [c]

/-- Go `encoding/json` serialization of a string: a double-quoted,
character-escaped literal. -/
def encodeJsonString (s : List Char) : List Char :=
  '"' :: s.flatMap escapeChar ++ ['"']

/-- Serialization of the key/value pairs of a Go `map[string]string`, in
the (key-sorted) order `json.Marshal` emits them, separated by commas. -/
def marshalPairs : List (List Char × List Char) → List Char
  | [] => []
  | [(k, v)] => encodeJsonString k ++ ':' :: encodeJsonString v
  | (k, v) :: p :: rest =>
      encodeJsonString k ++ ':' :: encodeJsonString v ++ ',' :: marshalPairs (p :: rest)

/-- Go `json.Marshal` of a `map[string]string` represented canonically as a
key-sorted association list: an object with one member per entry. -/
def marshalMap (l : List (List Char × List Char)) : List Char :=
  Char.ofNat 123 :: marshalPairs l ++ [Char.ofNat 125]

/-- An Argument Set: the canonical representation of a Go
`map[string]string`, an association list strictly sorted on the keys. -/
abbrev ArgMap := List (String × String)

/-- Key-sortedness: the invariant making an association list the canonical
representation of a Go map (keys strictly increasing, hence unique). -/
def keySorted (l : ArgMap) : Prop := l.Chain' (fun a b => a.1 < b.1)

/-- Go `json.Marshal` applied to an Argument Set. -/
def marshalArgMap (params : ArgMap) : List Char :=
  marshalMap (params.map (fun kv => (kv.1.data, kv.2.data)))

/-- The values the workflow-id hash is applied to: each hash argument is
either a parameter value (a string) or the whole Argument Set. -/
inductive JVal where
  | str (s : String)
  | map (l : ArgMap)
deriving DecidableEq, Repr

/-- Go `json.Marshal` of a hash argument. -/
def JVal.marshal : JVal → List Char
  | .str s => encodeJsonString s.data
  | .map l => marshalArgMap l

/-- Embedding of `hashWorkflowArgs` (`cmd/temporal-mcp/hash_args.go`): with
no explicit arguments it hashes the entire Argument Set and emits a warning
(the returned flag); otherwise it feeds the `json.Marshal` bytes of each
argument, in call order, into a single FNV-1 32-bit hasher and renders the
digest in decimal.  `json.Marshal` cannot fail on these values, so the
error result of the Go function is always nil and is omitted. -/
def hashWorkflowArgs (allParams : ArgMap) (paramsToHash : List JVal) : String × Bool :=
  let (args, warned) :=
    if paramsToHash.isEmpty then ([JVal.map allParams], true) else (paramsToHash, false)
  let bytes := args.flatMap (fun a => utf8Encode a.marshal)
  (toString (fnv32 bytes), warned)

/-- The cache key: Go `fmt.Sprintf("%x", paramsBytes)` of the
`json.Marshal` serialization of the parameter map, as computed by both
`CacheClient.Get` and `CacheClient.Set`. -/
def paramsHashOf (params : ArgMap) : String :=
  String.mk (hexEncode (utf8Encode (marshalArgMap params)))

/-- One row of the `workflow_cache` table. -/
structure CacheEntry where
  workflowName : String
  paramsHash : String
  params : String
  result : String
  createdAt : Int
deriving DecidableEq, Repr

/-- Embedding of the `CacheClient` (`internal/tool`): the table content,
the enabled flag, and the parsed TTL (seconds). -/
structure CacheClient where
  db : List CacheEntry
  enabled : Bool
  ttl : Int
deriving DecidableEq, Repr

/-- Row predicate matching the primary key `(workflow_name, params_hash)`. -/
def keyMatches (name hash : String) (e : CacheEntry) : Bool :=
  e.workflowName == name && e.paramsHash == hash

/-- Embedding of `CacheClient.Get`: returns `("", false)` when disabled;
otherwise looks up the row with the computed key, deletes it and reports a
miss when `now - created_at > ttl`, and returns the stored result on an
unexpired hit.  The possibly-updated client is returned alongside. -/
def CacheClient.Get (c : CacheClient) (now : Int) (name : String) (params : ArgMap) :
    (String × Bool) × CacheClient :=
  if !c.enabled then (("", false), c)
  else
    let hash := paramsHashOf params
    match c.db.find? (keyMatches name hash) with
    | none => (("", false), c)
    | some e =>
        if now - e.createdAt > c.ttl then
          (("", false), { c with db := c.db.filter (fun x => !keyMatches name hash x) })
        else ((e.result, true), c)

/-- Embedding of `CacheClient.Set`: a no-op when disabled; otherwise an
upsert (`INSERT OR REPLACE`) of the row keyed by the computed hash, storing
the canonical argument bytes and the current unix time. -/
def CacheClient.Set (c : CacheClient) (now : Int) (name : String) (params : ArgMap)
    (result : String) : CacheClient :=
  if !c.enabled then c
  else
    let hash := paramsHashOf params
    let entry : CacheEntry :=
      { workflowName := name, paramsHash := hash,
        params := String.mk (marshalArgMap params), result := result, createdAt := now }
    { c with db := c.db.filter (fun x => !keyMatches name hash x) ++ [entry] }

/-- Embedding of `CacheClient.Clear`: a no-op returning 0 when disabled;
deletes every row when the name is empty, otherwise exactly the rows of
that workflow, returning the number of rows removed. -/
def CacheClient.Clear (c : CacheClient) (name : String) : Int × CacheClient :=
  if !c.enabled then (0, c)
  else if name == "" then ((c.db.length : Int), { c with db := [] })
  else
    let removed := (c.db.filter (fun e => e.workflowName == name)).length
    ((removed : Int), { c with db := c.db.filter (fun e => !(e.workflowName == name)) })

/-- Identifier characters accepted in a template field reference. -/
def isIdentChar (c : Char) : Bool := c.isAlphanum || c = '_'

/-- Skip blanks inside a template action. -/
def skipSpaces : List Char → List Char
  | c :: rest =>
      if c = ' ' || c = Char.ofNat 9 || c = Char.ofNat 10 || c = Char.ofNat 13 then
        skipSpaces rest
      else c :: rest
  | [] => []

/-- Take the longest identifier leading the input. -/
def takeIdent : List Char → List Char × List Char
  | [] => ([], [])
  | c :: rest =>
      if isIdentChar c then
        let (i, r) := takeIdent rest
        (c :: i, r)
      else ([], c :: rest)

/-- Argument of a template action: the whole Argument Set or one field. -/
inductive TArg where
  | dot
  | field (name : String)
deriving DecidableEq, Repr

/-- Parsed template node: literal text, a value substitution, or a call of
the built-in hash function. -/
inductive TNode where
  | text (s : List Char)
  | pipe (a : TArg)
  | hashCall (args : List TArg)
deriving DecidableEq, Repr

/-- Parse one `.`-prefixed argument token. -/
def parseArgToken : List Char → Option (TArg × List Char)
  | c :: rest =>
      if c = '.' then
        let (name, rest2) := takeIdent rest
        if name.isEmpty then some (.dot, rest2)
        else some (.field (String.mk name), rest2)
      else none
  | [] => none

/-- Consume the closing delimiter of an action. -/
def parseClose (cs : List Char) : Option (List Char) :=
  match skipSpaces cs with
  | c1 :: c2 :: rest =>
      if c1 = Char.ofNat 125 ∧ c2 = Char.ofNat 125 then some rest else none
  | _ => none

/-- Parse the space-separated arguments of a hash call up to the closing
delimiter. -/
def parseHashArgs : Nat → List Char → List TArg → Except String (TNode × List Char)
  | 0, _, _ => .error "template parse ran out of fuel"
  | fuel + 1, cs, acc =>
      match parseClose cs with
      | some rest => .ok (.hashCall acc.reverse, rest)
      | none =>
          match parseArgToken (skipSpaces cs) with
          | some (a, rest) => parseHashArgs fuel rest (a :: acc)
          | none => .error "unexpected token in hash call"

/-- Parse the inside of one action (after the opening delimiter). -/
def parseAction (cs : List Char) : Except String (TNode × List Char) :=
  match skipSpaces cs with
  | 'h' :: 'a' :: 's' :: 'h' :: rest =>
      if (match rest with | c :: _ => !isIdentChar c | [] => true) then
        parseHashArgs (rest.length + 1) rest []
      else .error "function not defined"
  | cs1 =>
      match parseArgToken cs1 with
      | some (a, rest) =>
          match parseClose rest with
          | some rest2 => .ok (.pipe a, rest2)
          | none => .error "unexpected token after argument"
      | none => .error "unrecognized action"

/-- Scan literal text up to the opening action delimiter; returns the text
and, when an action opener was found, the remainder after it. -/
def scanText : List Char → List Char × Option (List Char)
  | [] => ([], none)
  | [c] => ([c], none)
  | c1 :: c2 :: rest =>
      if c1 = Char.ofNat 123 ∧ c2 = Char.ofNat 123 then ([], some rest)
      else
        let (t, m) := scanText (c2 :: rest)
        (c1 :: t, m)

/-- Parse a whole template into nodes. -/
def parseTemplateAux : Nat → List Char → Except String (List TNode)
  | 0, _ => .error "template parse ran out of fuel"
  | _, [] => .ok []
  | fuel + 1, cs =>
      match scanText cs with
      | (txt, none) => .ok [TNode.text txt]
      | (txt, some rest) =>
          match parseAction rest with
          | .error e => .error e
          | .ok (node, rest2) =>
              match parseTemplateAux fuel rest2 with
              | .error e => .error e
              | .ok nodes => .ok (TNode.text txt :: node :: nodes)

/-- Modelled from the spec: the Go `text/template` engine used by
`computeWorkflowID` is an external library, not part of this repository's
sources; this parser models the fragment of its syntax the identity
templates use (literal text, `.`/field substitutions, and calls of the
registered `hash` function), failing on malformed or unsupported actions
exactly where template parsing fails. -/
def parseTemplate (recipe : String) : Except String (List TNode) :=
  parseTemplateAux (recipe.data.length + 1) recipe.data

/-- Case-sensitive lookup of a parameter value. -/
def lookupParam (params : ArgMap) (name : String) : Option String :=
  (params.find? (fun kv => kv.1 == name)).map (fun kv => kv.2)

/-- Go `fmt` rendering of a `map[string]string` in key-sorted order, used
when a template substitutes the whole Argument Set. -/
def goFmtMap (params : ArgMap) : List Char :=
  'm' :: 'a' :: 'p' :: '[' ::
    (List.intercalate [' '] (params.map (fun kv => kv.1.data ++ ':' :: kv.2.data))) ++ [']']

/-- The visible sentinel `text/template` substitutes for a missing map
key. -/
def noValueMarker : String := "<no value>"

/-- Evaluate a hash-call argument to the Go value passed to
`hashWorkflowArgs`: `.` is the whole parameter map, a field is the string
at that key (the zero value for a missing key). -/
def evalHashArg (params : ArgMap) : TArg → JVal
  | .dot => .map params
  | .field n => .str ((lookupParam params n).getD "")

/-- Modelled from the spec: rendering of one parsed node by the Go
`text/template` engine (external to this repository): a missing map key
renders as the visible `<no value>` sentinel instead of failing, and a
hash call renders the decimal digest from `hashWorkflowArgs`. -/
def renderNode (params : ArgMap) : TNode → List Char
  | .text s => s
  | .pipe .dot => goFmtMap params
  | .pipe (.field n) =>
      match lookupParam params n with
      | some v => v.data
      | none => noValueMarker.data
  | .hashCall args =>
      ((hashWorkflowArgs params (args.map (evalHashArg params))).1).data

/-- Render a parsed template against an Argument Set. -/
def renderTemplate (params : ArgMap) (nodes : List TNode) : List Char :=
  (nodes.map (renderNode params)).flatten

/-- A workflow definition, restricted to the fields the handler reads. -/
structure WorkflowDef where
  taskQueue : String
  workflowIDRecipe : String
deriving Repr

/-- Embedding of `computeWorkflowID` (`cmd/temporal-mcp/main.go`): parse
the identity recipe, then execute it against the parameter map; rendering
never fails, so the only error source is the parse. -/
def computeWorkflowID (workflow : WorkflowDef) (params : ArgMap) : Except String String :=
  match parseTemplate workflow.workflowIDRecipe with
  | .error e => .error e
  | .ok nodes => .ok (String.mk (renderTemplate params nodes))

/-- The Temporal workflow-id reuse policies the handler selects between. -/
inductive ReusePolicy where
  | allowDuplicateFailedOnly
  | allowDuplicate
deriving DecidableEq, Repr

/-- The Temporal workflow-id conflict policies the handler selects between. -/
inductive ConflictPolicy where
  | useExisting
  | terminateExisting
deriving DecidableEq, Repr

/-- The start options the handler passes to `ExecuteWorkflow`. -/
structure StartWorkflowOptions where
  taskQueue : String
  id : String
  reusePolicy : ReusePolicy
  conflictPolicy : ConflictPolicy
deriving DecidableEq, Repr

/-- The policy assignment in `registerWorkflowTool`: the defaults are
attach-or-start (`ALLOW_DUPLICATE_FAILED_ONLY` with `USE_EXISTING`), and
`force_rerun` overrides both to force-new (`ALLOW_DUPLICATE` with
`TERMINATE_EXISTING`). -/
def choosePolicies (forceRerun : Bool) : ReusePolicy × ConflictPolicy :=
  let reusePolicy := ReusePolicy.allowDuplicateFailedOnly
  let conflictPolicy := ConflictPolicy.useExisting
  if forceRerun then (ReusePolicy.allowDuplicate, ConflictPolicy.terminateExisting)
  else (reusePolicy, conflictPolicy)

/-- The JSON body of one tool invocation. -/
structure WorkflowParams where
  params : ArgMap
  forceRerun : Bool

/-- Outcome of asking the external engine to execute a workflow: the start
call fails, the awaited run fails, or the run completes with a result. -/
inductive EngineOutcome where
  | startErr (e : String)
  | runErr (e : String)
  | completed (result : String)

/-- The environment a registered workflow tool closes over: its name, its
definition, engine availability and behavior, and the cache flag. -/
structure ToolEnv where
  name : String
  workflow : WorkflowDef
  tempClientAvailable : Bool
  engine : StartWorkflowOptions → EngineOutcome
  cacheEnabled : Bool
  defaultTaskQueue : String

/-- Result of one handler run: the textual response, the options of the
`ExecuteWorkflow` call if one was made (`none` when the engine was never
asked to start or attach), and the cache afterwards. -/
structure HandlerOutput where
  response : String
  engineOpts : Option StartWorkflowOptions
  cache : Option CacheClient

/-- The part of the `registerWorkflowTool` handler after the cache check:
checks engine availability, picks the task queue, computes the workflow id,
selects the policies from `force_rerun`, executes, and writes the result
back to the cache on success. -/
def handleAfterCache (env : ToolEnv) (cache : Option CacheClient) (now : Int)
    (args : WorkflowParams) : HandlerOutput :=
  if !env.tempClientAvailable then
    { response := "Error: Temporal service is currently unavailable. Please try again later.",
      engineOpts := none, cache := cache }
  else
    let taskQueue :=
      if env.workflow.taskQueue == "" then env.defaultTaskQueue else env.workflow.taskQueue
    match computeWorkflowID env.workflow args.params with
    | .error e =>
        { response := "Error computing workflow ID from arguments: " ++ e,
          engineOpts := none, cache := cache }
    | .ok workflowID =>
        let policies := choosePolicies args.forceRerun
        let opts : StartWorkflowOptions :=
          { taskQueue := taskQueue, id := workflowID,
            reusePolicy := policies.1, conflictPolicy := policies.2 }
        match env.engine opts with
        | .startErr e =>
            { response := "Error executing workflow: " ++ e,
              engineOpts := some opts, cache := cache }
        | .runErr e =>
            { response := "Workflow failed: " ++ e,
              engineOpts := some opts, cache := cache }
        | .completed result =>
            let cache' :=
              match env.cacheEnabled, cache with
              | true, some c => some (c.Set now env.name args.params result)
              | _, _ => cache
            { response := result, engineOpts := some opts, cache := cache' }

/-- Embedding of the `registerWorkflowTool` handler (the caching variant
whose body begins by consulting the Result Cache): when caching is enabled
and a cache client exists, `Get` runs first and a hit is returned
immediately; everything else happens only on a miss. -/
def handleWorkflowTool (env : ToolEnv) (cache : Option CacheClient) (now : Int)
    (args : WorkflowParams) : HandlerOutput :=
  match env.cacheEnabled, cache with
  | true, some c =>
      let ((res, found), c') := c.Get now env.name args.params
      if found then { response := res, engineOpts := none, cache := some c' }
      else handleAfterCache env (some c') now args
  | _, _ => handleAfterCache env cache now args

mutual
/-- A protobuf message node of the execution-history tree: its full type
name and its set fields, as exposed by `protoreflect`. -/
inductive PMsg where
  | mk (typeName : String) (fields : List PField)

/-- One set field of a message, classified the way `sanitizeRecursively`
branches on it: singular scalar or message (an unset message field is
`msgF none` and is not visited), a list of scalars or of messages (with the
declared element type), or a map with scalar or message values (with the
declared value type). -/
inductive PField where
  | scalarF
  | msgF (m : Option PMsg)
  | listScalarF
  | listMsgF (elemType : String) (items : List PMsg)
  | mapScalarF
  | mapMsgF (valueType : String) (entries : List PEntry)

/-- One entry of a map-valued field. -/
inductive PEntry where
  | mk (key : String) (value : PMsg)
end

/-- Full type name of a message node. -/
def PMsg.typeName : PMsg → String
  | .mk ty _ => ty

/-- Boolean suffix test on character lists (Go `strings.HasSuffix`). -/
def listEndsWith (s suf : List Char) : Bool :=
  s.drop (s.length - suf.length) == suf

/-- The opaque-payload naming convention on a full type name. -/
def isPayloadName (ty : String) : Bool :=
  listEndsWith ty.data (String.data ".Payload") || listEndsWith ty.data (String.data ".Payloads")

/-- Embedding of `isPayload` (`cmd/temporal-mcp/sanitize_history_event.go`):
a message is a payload iff its full type name ends in `.Payload` or
`.Payloads`. -/
def isPayload (m : PMsg) : Bool := isPayloadName m.typeName

mutual
/-- Embedding of `sanitizeRecursively`: visit every set field of the
message and rewrite it. -/
def sanitizeMsg (m : PMsg) : PMsg :=
  match m with
  | .mk ty fields => .mk ty (sanitizeFields fields)
termination_by structural m

/-- Rewrite each field in turn (the `Range` over set fields). -/
def sanitizeFields (l : List PField) : List PField :=
  match l with
  | [] => []
  | f :: fs => sanitizeField f :: sanitizeFields fs
termination_by structural l

/-- The per-field switch of `sanitizeRecursively`: non-message kinds are
left alone; a payload-typed singular message is cleared, a non-payload one
is recursed into; message lists and maps go through their loops. -/
def sanitizeField (f : PField) : PField :=
  match f with
  | .scalarF => .scalarF
  | .msgF none => .msgF none
  | .msgF (some m) =>
      if isPayload m then .msgF none else .msgF (some (sanitizeMsg m))
  | .listScalarF => .listScalarF
  | .listMsgF ty items => .listMsgF ty (sanitizeListLoop items [])
  | .mapScalarF => .mapScalarF
  | .mapMsgF ty entries => .mapMsgF ty (sanitizeEntries entries)
termination_by structural f

/-- The list loop of `sanitizeRecursively`: walk the items; on the first
payload item truncate the whole (already partially sanitized) list to
empty and stop, otherwise sanitize the item in place and continue. -/
def sanitizeListLoop (l : List PMsg) (acc : List PMsg) : List PMsg :=
  match l with
  | [] => acc.reverse
  | m :: rest =>
      if isPayload m then [] else sanitizeListLoop rest (sanitizeMsg m :: acc)
termination_by structural l

/-- The map loop of `sanitizeRecursively`: delete the entries whose value
is a payload, sanitize the remaining values in place. -/
def sanitizeEntries (l : List PEntry) : List PEntry :=
  match l with
  | [] => []
  | .mk k v :: rest =>
      if isPayload v then sanitizeEntries rest
      else .mk k (sanitizeMsg v) :: sanitizeEntries rest
termination_by structural l
end

mutual
/-- The claim's description of redaction, written from the spec text: visit
every message-typed field recursively and remove exactly the
payload-convention nodes. -/
def redactSpecMsg (m : PMsg) : PMsg :=
  match m with
  | .mk ty fields => .mk ty (redactSpecFields fields)
termination_by structural m

/-- Spec-side redaction of each field in turn. -/
def redactSpecFields (l : List PField) : List PField :=
  match l with
  | [] => []
  | f :: fs => redactSpecField f :: redactSpecFields fs
termination_by structural l

/-- Spec-side redaction of one field: a list field whose declared element
type matches the convention is truncated to empty, otherwise its elements
are recursed into; in a map field exactly the matching entries are removed
and the rest recursed into; a matching singular message field is cleared in
place, a non-matching one recursed into; non-message kinds are untouched. -/
def redactSpecField (f : PField) : PField :=
  match f with
  | .scalarF => .scalarF
  | .msgF none => .msgF none
  | .msgF (some m) =>
      if isPayloadName m.typeName then .msgF none else .msgF (some (redactSpecMsg m))
  | .listScalarF => .listScalarF
  | .listMsgF ty items =>
      if isPayloadName ty then .listMsgF ty [] else .listMsgF ty (redactSpecList items)
  | .mapScalarF => .mapScalarF
  | .mapMsgF ty entries => .mapMsgF ty (redactSpecEntries entries)
termination_by structural f

/-- Spec-side redaction of the items of a non-matching list field. -/
def redactSpecList (l : List PMsg) : List PMsg :=
  match l with
  | [] => []
  | m :: rest => redactSpecMsg m :: redactSpecList rest
termination_by structural l

/-- Spec-side redaction of map entries: drop the matching values, keep and
recurse into the others. -/
def redactSpecEntries (l : List PEntry) : List PEntry :=
  match l with
  | [] => []
  | .mk k v :: rest =>
      if isPayloadName v.typeName then redactSpecEntries rest
      else .mk k (redactSpecMsg v) :: redactSpecEntries rest
termination_by structural l
end

mutual
/-- Type-homogeneity of message lists, the protobuf invariant the claim
relies on: in every list field, each item's full type name is the field's
declared element type. -/
def homogMsg (m : PMsg) : Bool :=
  match m with
  | .mk _ fields => homogFields fields
termination_by structural m

/-- Homogeneity of every field of a message. -/
def homogFields (l : List PField) : Bool :=
  match l with
  | [] => true
  | f :: fs => homogField f && homogFields fs
termination_by structural l

/-- Homogeneity of one field. -/
def homogField (f : PField) : Bool :=
  match f with
  | .scalarF => true
  | .msgF none => true
  | .msgF (some m) => homogMsg m
  | .listScalarF => true
  | .listMsgF ty items => homogList ty items
  | .mapScalarF => true
  | .mapMsgF _ entries => homogEntries entries
termination_by structural f

/-- Every item of a list field has the declared element type and is itself
homogeneous. -/
def homogList (ty : String) (l : List PMsg) : Bool :=
  match l with
  | [] => true
  | m :: rest => (m.typeName == ty) && homogMsg m && homogList ty rest
termination_by structural l

/-- Every map value is homogeneous. -/
def homogEntries (l : List PEntry) : Bool :=
  match l with
  | [] => true
  | .mk _ v :: rest => homogMsg v && homogEntries rest
termination_by structural l
end

/-- Inverse of `hexEncode`: read two hex digits per byte. -/
def hexDecode : List Char → Option (List Nat)
  | [] => some []
  | c1 :: c2 :: rest =>
      match hexDigitVal c1, hexDigitVal c2, hexDecode rest with
      | some a, some b, some l => some ((a * 16 + b) :: l)
      | _, _, _ => none
  | _ => none

/-- Decode one UTF-8 encoded scalar value from the front of a byte list. -/
def utf8DecodeOne (bs : List Nat) : Option (Nat × List Nat) :=
  match bs with
  | [] => none
  | b :: rest =>
      if b < 128 then some (b, rest)
      else if b < 224 then
        match rest with
        | b2 :: rest2 => some ((b - 192) * 64 + (b2 - 128), rest2)
        | [] => none
      else if b < 240 then
        match rest with
        | b2 :: b3 :: rest3 => some (((b - 224) * 64 + (b2 - 128)) * 64 + (b3 - 128), rest3)
        | _ => none
      else
        match rest with
        | b2 :: b3 :: b4 :: rest4 =>
            some ((((b - 240) * 64 + (b2 - 128)) * 64 + (b3 - 128)) * 64 + (b4 - 128), rest4)
        | _ => none

/-- Fuelled UTF-8 decoding loop. -/
def utf8DecodeAux : Nat → List Nat → Option (List Char)
  | _, [] => some []
  | 0, _ :: _ => none
  | fuel + 1, bs =>
      match utf8DecodeOne bs with
      | none => none
      | some (n, rest) => (utf8DecodeAux fuel rest).map (fun l => Char.ofNat n :: l)

/-- Inverse of `utf8Encode`: decode a UTF-8 byte sequence back to unicode
scalar values. -/
def utf8Decode (bs : List Nat) : Option (List Char) := utf8DecodeAux bs.length bs

/-- Decode one escaped character from a JSON string body (`none` on the
closing quote or malformed input). -/
def unescapeOne (cs : List Char) : Option (Char × List Char) :=
  match cs with
  | [] => none
  | c :: rest =>
      if c = '"' then none
      else if c = '\\' then
        match rest with
        | [] => none
        | e :: rest2 =>
            if e = '"' then some ('"', rest2)
            else if e = '\\' then some ('\\', rest2)
            else if e = 'n' then some ('\n', rest2)
            else if e = 'r' then some ('\r', rest2)
            else if e = 't' then some ('\t', rest2)
            else if e = 'u' then
              match rest2 with
              | d1 :: d2 :: d3 :: d4 :: rest3 =>
                  match hexDigitVal d1, hexDigitVal d2, hexDigitVal d3, hexDigitVal d4 with
                  | some a, some b, some x, some y =>
                      some (Char.ofNat (((a * 16 + b) * 16 + x) * 16 + y), rest3)
                  | _, _, _, _ => none
              | _ => none
            else none
      else some (c, rest)

/-- Fuelled loop reading a JSON string body up to its closing quote. -/
def parseStrBodyAux : Nat → List Char → Option (List Char × List Char)
  | 0, _ => none
  | fuel + 1, cs =>
      match cs with
      | [] => none
      | c :: rest =>
          if c = '"' then some ([], rest)
          else
            match unescapeOne (c :: rest) with
            | none => none
            | some (ch, rest2) =>
                (parseStrBodyAux fuel rest2).map (fun p => (ch :: p.1, p.2))

/-- Inverse of `encodeJsonString`: expect an opening quote, then the body. -/
def parseJsonString (cs : List Char) : Option (List Char × List Char) :=
  match cs with
  | c :: rest => if c = '"' then parseStrBodyAux rest.length rest else none
  | [] => none

/-- Inverse of `marshalPairs` (fuelled): a comma-separated, nonempty
sequence of quoted `key:value` members. -/
def parsePairs : Nat → List Char → Option (List (List Char × List Char) × List Char)
  | 0, _ => none
  | fuel + 1, cs =>
      match parseJsonString cs with
      | none => none
      | some (k, rest) =>
          match rest with
          | c :: rest2 =>
              if c = ':' then
                match parseJsonString rest2 with
                | none => none
                | some (v, rest3) =>
                    match rest3 with
                    | c2 :: rest4 =>
                        if c2 = ',' then
                          (parsePairs fuel rest4).map (fun p => ((k, v) :: p.1, p.2))
                        else some ([(k, v)], rest3)
                    | [] => some ([(k, v)], rest3)
              else none
          | [] => none

/-- Inverse of `marshalMap`: a braced object, empty or holding pairs. -/
def parseMapObject (cs : List Char) : Option (List (List Char × List Char) × List Char) :=
  match cs with
  | c1 :: c2 :: rest =>
      if c1 = Char.ofNat 123 ∧ c2 = Char.ofNat 125 then some ([], rest)
      else if c1 = Char.ofNat 123 then
        match parsePairs (c2 :: rest).length (c2 :: rest) with
        | none => none
        | some (l, r) =>
            match r with
            | c3 :: r2 => if c3 = Char.ofNat 125 then some (l, r2) else none
            | [] => none
      else none
  | _ => none

/-- Full inverse of `paramsHashOf`: hex-decode to bytes, UTF-8 decode to
characters, parse the JSON object, and require the input to be exhausted. -/
def decodeCacheKey (cs : List Char) : Option ArgMap :=
  match hexDecode cs with
  | none => none
  | some bytes =>
      match utf8Decode bytes with
      | none => none
      | some chars =>
          match parseMapObject chars with
          | some (l, []) => some (l.map (fun kv => (String.mk kv.1, String.mk kv.2)))
          | _ => none

/-- Every unicode scalar value is below 0x110000. -/
theorem charToNat_lt (c : Char) : c.toNat < 1114112 := by
  have h := c.valid
  rcases h with h | ⟨_, h2⟩
  · exact Nat.lt_trans h (by norm_num)
  · exact h2

/-- The hex digit characters decode back to their values. -/
theorem hexDigitVal_hexDigitChar : ∀ n, n < 16 → hexDigitVal (hexDigitChar n) = some n := by
  decide

/-- Hex decoding inverts hex encoding on byte lists. -/
theorem hexDecode_hexEncode (bytes : List Nat) (h : ∀ b ∈ bytes, b < 256) :
    hexDecode (hexEncode bytes) = some bytes := by
  induction bytes with
  | nil => rfl
  | cons b bs ih =>
      have hb : b < 256 := h b (List.mem_cons_self b bs)
      have h1 : b / 16 < 16 := by omega
      have h2 : b % 16 < 16 := by omega
      have ihh := ih (fun x hx => h x (List.mem_cons_of_mem b hx))
      simp only [hexEncode, List.flatMap_cons, List.cons_append, List.nil_append]
      simp only [hexDecode, hexDigitVal_hexDigitChar _ h1, hexDigitVal_hexDigitChar _ h2]
      rw [show hexEncode bs = bs.flatMap
        (fun b => [hexDigitChar (b / 16), hexDigitChar (b % 16)]) from rfl] at *
      rw [ihh]
      have : b / 16 * 16 + b % 16 = b := by omega
      simp [this]

/-- Every byte of a UTF-8 encoded character is below 256. -/
theorem utf8EncodeChar_lt (c : Char) : ∀ b ∈ utf8EncodeChar c, b < 256 := by
  intro b hb
  have hlt := charToNat_lt c
  simp only [utf8EncodeChar] at hb
  split at hb
  · simp at hb; omega
  · split at hb
    · simp at hb; omega
    · split at hb <;> simp at hb <;> omega

/-- Decoding one encoded character yields its scalar value and the tail. -/
theorem utf8DecodeOne_encodeChar (c : Char) (tail : List Nat) :
    utf8DecodeOne (utf8EncodeChar c ++ tail) = some (c.toNat, tail) := by
  have hlt := charToNat_lt c
  by_cases h1 : c.toNat < 128
  · simp only [utf8EncodeChar, if_pos h1, List.cons_append, List.nil_append]
    simp only [utf8DecodeOne, if_pos h1]
  · by_cases h2 : c.toNat < 2048
    · simp only [utf8EncodeChar, if_neg h1, if_pos h2, List.cons_append, List.nil_append]
      have hb1 : ¬(192 + c.toNat / 64 < 128) := by omega
      have hb2 : 192 + c.toNat / 64 < 224 := by omega
      simp only [utf8DecodeOne, if_neg hb1, if_pos hb2]
      have hv : (192 + c.toNat / 64 - 192) * 64 + (128 + c.toNat % 64 - 128) = c.toNat := by
        omega
      rw [hv]
    · by_cases h3 : c.toNat < 65536
      · simp only [utf8EncodeChar, if_neg h1, if_neg h2, if_pos h3, List.cons_append,
          List.nil_append]
        have hb1 : ¬(224 + c.toNat / 4096 < 128) := by omega
        have hb2 : ¬(224 + c.toNat / 4096 < 224) := by omega
        have hb3 : 224 + c.toNat / 4096 < 240 := by omega
        simp only [utf8DecodeOne, if_neg hb1, if_neg hb2, if_pos hb3]
        have hv : ((224 + c.toNat / 4096 - 224) * 64 + (128 + c.toNat / 64 % 64 - 128)) * 64 +
            (128 + c.toNat % 64 - 128) = c.toNat := by omega
        rw [hv]
      · simp only [utf8EncodeChar, if_neg h1, if_neg h2, if_neg h3, List.cons_append,
          List.nil_append]
        have hb1 : ¬(240 + c.toNat / 262144 < 128) := by omega
        have hb2 : ¬(240 + c.toNat / 262144 < 224) := by omega
        have hb3 : ¬(240 + c.toNat / 262144 < 240) := by omega
        simp only [utf8DecodeOne, if_neg hb1, if_neg hb2, if_neg hb3]
        have hv : (((240 + c.toNat / 262144 - 240) * 64 + (128 + c.toNat / 4096 % 64 - 128)) *
            64 + (128 + c.toNat / 64 % 64 - 128)) * 64 + (128 + c.toNat % 64 - 128) =
            c.toNat := by omega
        rw [hv]

/-- The encoding of a character is never empty. -/
theorem utf8EncodeChar_ne_nil (c : Char) : utf8EncodeChar c ≠ [] := by
  simp only [utf8EncodeChar]
  split <;> try simp
  split <;> try simp
  split <;> simp

/-- The fuelled UTF-8 decoding loop inverts encoding given enough fuel. -/
theorem utf8DecodeAux_utf8Encode (s : List Char) : ∀ fuel, s.length ≤ fuel →
    utf8DecodeAux fuel (utf8Encode s) = some s := by
  induction s with
  | nil => intro fuel _; cases fuel <;> rfl
  | cons c cs ih =>
      intro fuel hfuel
      cases fuel with
      | zero => simp at hfuel
      | succ f =>
          have hne : utf8Encode (c :: cs) ≠ [] := by
            simp only [utf8Encode, List.flatMap_cons]
            intro h
            rcases List.append_eq_nil.mp h with ⟨h1, _⟩
            exact utf8EncodeChar_ne_nil c h1
          have hstep : utf8DecodeOne (utf8Encode (c :: cs)) = some (c.toNat, utf8Encode cs) := by
            have := utf8DecodeOne_encodeChar c (utf8Encode cs)
            simpa only [utf8Encode, List.flatMap_cons] using this
          have hcs := ih f (by simpa using hfuel)
          rcases hlist : utf8Encode (c :: cs) with _ | ⟨b, rest⟩
          · exact absurd hlist hne
          · rw [hlist] at hstep
            simp only [utf8DecodeAux, hstep, hcs, Char.ofNat_toNat]
            rfl

/-- UTF-8 decoding inverts UTF-8 encoding. -/
theorem utf8Decode_utf8Encode (s : List Char) : utf8Decode (utf8Encode s) = some s := by
  have hlen : s.length ≤ (utf8Encode s).length := by
    induction s with
    | nil => simp [utf8Encode]
    | cons c cs ih =>
        have h1 : 1 ≤ (utf8EncodeChar c).length := by
          rcases h : utf8EncodeChar c with _ | _
          · exact absurd h (utf8EncodeChar_ne_nil c)
          · simp
        simp only [utf8Encode, List.flatMap_cons, List.length_append, List.length_cons] at *
        omega
  exact utf8DecodeAux_utf8Encode s (utf8Encode s).length hlen

/-- Shape of an escaped character: either a backslash-led escape sequence
or the character itself passed through (then it is neither a quote nor a
backslash). -/
theorem escapeChar_cases (c : Char) :
    (∃ t, escapeChar c = '\\' :: t) ∨ (escapeChar c = [c] ∧ c ≠ '"' ∧ c ≠ '\\') := by
  by_cases h1 : c = '"'
  · exact Or.inl ⟨['"'], by simp [escapeChar, h1]⟩
  · by_cases h2 : c = '\\'
    · exact Or.inl ⟨['\\'], by simp [escapeChar, h1, h2]⟩
    · by_cases h3 : c = '\n'
      · exact Or.inl ⟨['n'], by simp [escapeChar, h1, h2, h3]⟩
      · by_cases h4 : c = '\r'
        · exact Or.inl ⟨['r'], by simp [escapeChar, h1, h2, h3, h4]⟩
        · by_cases h5 : c = '\t'
          · exact Or.inl ⟨['t'], by simp [escapeChar, h1, h2, h3, h4, h5]⟩
          · by_cases h6 : c.toNat < 32
            · exact Or.inl ⟨['u', '0', '0', hexDigitChar (c.toNat / 16),
                hexDigitChar (c.toNat % 16)], by simp [escapeChar, h1, h2, h3, h4, h5, h6]⟩
            · by_cases h7 : c = '<'
              · exact Or.inl ⟨['u', '0', '0', '3', 'c'],
                  by simp [escapeChar, h1, h2, h3, h4, h5, h6, h7]⟩
              · by_cases h8 : c = '>'
                · exact Or.inl ⟨['u', '0', '0', '3', 'e'],
                    by simp [escapeChar, h1, h2, h3, h4, h5, h6, h7, h8]⟩
                · by_cases h9 : c = '&'
                  · exact Or.inl ⟨['u', '0', '0', '2', '6'],
                      by simp [escapeChar, h1, h2, h3, h4, h5, h6, h7, h8, h9]⟩
                  · by_cases h10 : c.toNat = 8232
                    · exact Or.inl ⟨['u', '2', '0', '2', '8'],
                        by simp [escapeChar, h1, h2, h3, h4, h5, h6, h7, h8, h9, h10]⟩
                    · by_cases h11 : c.toNat = 8233
                      · exact Or.inl ⟨['u', '2', '0', '2', '9'],
                          by simp [escapeChar, h1, h2, h3, h4, h5, h6, h7, h8, h9, h10, h11]⟩
                      · exact Or.inr ⟨by
                          simp [escapeChar, h1, h2, h3, h4, h5, h6, h7, h8, h9, h10, h11],
                          h1, h2⟩

/-- Reading one escaped character undoes the escaping. -/
theorem unescapeOne_escapeChar (c : Char) (rest : List Char) :
    unescapeOne (escapeChar c ++ rest) = some (c, rest) := by
  by_cases h1 : c = '"'
  · subst h1; rfl
  · by_cases h2 : c = '\\'
    · subst h2; rfl
    · by_cases h3 : c = '\n'
      · subst h3; rfl
      · by_cases h4 : c = '\r'
        · subst h4; rfl
        · by_cases h5 : c = '\t'
          · subst h5; rfl
          · by_cases h6 : c.toNat < 32
            · simp only [escapeChar, if_neg h1, if_neg h2, if_neg h3, if_neg h4, if_neg h5,
                if_pos h6, List.cons_append, List.nil_append]
              have hd1 : c.toNat / 16 < 16 := by omega
              have hd2 : c.toNat % 16 < 16 := by omega
              simp only [unescapeOne, hexDigitVal_hexDigitChar _ hd1,
                hexDigitVal_hexDigitChar _ hd2]
              rw [if_neg (by decide : ¬('u' : Char) = '"'),
                if_neg (by decide : ¬('u' : Char) = '\\'),
                if_neg (by decide : ¬('u' : Char) = 'n'),
                if_neg (by decide : ¬('u' : Char) = 'r'),
                if_neg (by decide : ¬('u' : Char) = 't'),
                show hexDigitVal '0' = some 0 from rfl]
              show some (Char.ofNat (((0 * 16 + 0) * 16 + c.toNat / 16) * 16 + c.toNat % 16),
                rest) = some (c, rest)
              rw [show ((0 * 16 + 0) * 16 + c.toNat / 16) * 16 + c.toNat % 16 = c.toNat from
                by omega, Char.ofNat_toNat]
            · by_cases h7 : c = '<'
              · subst h7; rfl
              · by_cases h8 : c = '>'
                · subst h8; rfl
                · by_cases h9 : c = '&'
                  · subst h9; rfl
                  · by_cases h10 : c.toNat = 8232
                    · simp only [escapeChar, if_neg h1, if_neg h2, if_neg h3, if_neg h4,
                        if_neg h5, if_neg h6, if_neg h7, if_neg h8, if_neg h9, if_pos h10,
                        List.cons_append, List.nil_append]
                      simp only [unescapeOne]
                      rw [if_neg (by decide : ¬('u' : Char) = '"'),
                        if_neg (by decide : ¬('u' : Char) = '\\'),
                        if_neg (by decide : ¬('u' : Char) = 'n'),
                        if_neg (by decide : ¬('u' : Char) = 'r'),
                        if_neg (by decide : ¬('u' : Char) = 't'),
                        show hexDigitVal '2' = some 2 from rfl,
                        show hexDigitVal '0' = some 0 from rfl,
                        show hexDigitVal '8' = some 8 from rfl]
                      show some (Char.ofNat (((2 * 16 + 0) * 16 + 2) * 16 + 8), rest) =
                        some (c, rest)
                      rw [show (((2 : Nat) * 16 + 0) * 16 + 2) * 16 + 8 = 8232 from by
                        norm_num, ← h10, Char.ofNat_toNat]
                    · by_cases h11 : c.toNat = 8233
                      · simp only [escapeChar, if_neg h1, if_neg h2, if_neg h3, if_neg h4,
                          if_neg h5, if_neg h6, if_neg h7, if_neg h8, if_neg h9, if_neg h10,
                          if_pos h11, List.cons_append, List.nil_append]
                        simp only [unescapeOne]
                        rw [if_neg (by decide : ¬('u' : Char) = '"'),
                          if_neg (by decide : ¬('u' : Char) = '\\'),
                          if_neg (by decide : ¬('u' : Char) = 'n'),
                          if_neg (by decide : ¬('u' : Char) = 'r'),
                          if_neg (by decide : ¬('u' : Char) = 't'),
                          show hexDigitVal '2' = some 2 from rfl,
                          show hexDigitVal '0' = some 0 from rfl,
                          show hexDigitVal '9' = some 9 from rfl]
                        show some (Char.ofNat (((2 * 16 + 0) * 16 + 2) * 16 + 9), rest) =
                          some (c, rest)
                        rw [show (((2 : Nat) * 16 + 0) * 16 + 2) * 16 + 9 = 8233 from by
                          norm_num, ← h11, Char.ofNat_toNat]
                      · simp only [escapeChar, if_neg h1, if_neg h2, if_neg h3, if_neg h4,
                          if_neg h5, if_neg h6, if_neg h7, if_neg h8, if_neg h9, if_neg h10,
                          if_neg h11, List.cons_append, List.nil_append]
                        simp only [unescapeOne, if_neg h1, if_neg h2]

/-- The fuelled string-body loop undoes the escaping of a whole string,
given more fuel than characters. -/
theorem parseStrBodyAux_roundtrip (s : List Char) : ∀ fuel rest, s.length < fuel →
    parseStrBodyAux fuel (s.flatMap escapeChar ++ '"' :: rest) = some (s, rest) := by
  induction s with
  | nil =>
      intro fuel rest hfuel
      cases fuel with
      | zero => simp at hfuel
      | succ f =>
          simp only [List.flatMap_nil, List.nil_append, parseStrBodyAux, if_pos rfl,
            if_true]
  | cons c cs ih =>
      intro fuel rest hfuel
      cases fuel with
      | zero => simp at hfuel
      | succ f =>
          have hstep := unescapeOne_escapeChar c (cs.flatMap escapeChar ++ '"' :: rest)
          have hihf : cs.length < f := by simp at hfuel; omega
          have hih := ih f rest hihf
          rcases escapeChar_cases c with ⟨t, ht⟩ | ⟨ht, hq, hb⟩
          · rw [ht] at hstep
            simp only [List.cons_append] at hstep
            rw [List.flatMap_cons, List.append_assoc, ht]
            simp only [List.cons_append]
            simp only [parseStrBodyAux, if_neg (by decide : ¬('\\' : Char) = '"'), hstep,
              hih]
            rfl
          · rw [ht] at hstep
            simp only [List.cons_append, List.nil_append] at hstep
            rw [List.flatMap_cons, List.append_assoc, ht]
            simp only [List.cons_append, List.nil_append]
            simp only [parseStrBodyAux, if_neg hq, hstep, hih]
            rfl

/-- Escaping cannot shrink a string. -/
theorem flatMap_escapeChar_length (s : List Char) :
    s.length ≤ (s.flatMap escapeChar).length := by
  induction s with
  | nil => simp
  | cons c cs ih =>
      have h1 : 1 ≤ (escapeChar c).length := by
        rcases escapeChar_cases c with ⟨t, ht⟩ | ⟨ht, _, _⟩ <;> simp [ht]
      simp only [List.flatMap_cons, List.length_append, List.length_cons]
      omega

/-- Parsing a JSON string literal undoes `encodeJsonString`. -/
theorem parseJsonString_roundtrip (s rest : List Char) :
    parseJsonString (encodeJsonString s ++ rest) = some (s, rest) := by
  have hlen : s.length < (s.flatMap escapeChar ++ '"' :: rest).length := by
    have := flatMap_escapeChar_length s
    simp only [List.length_append, List.length_cons]
    omega
  have hbody := parseStrBodyAux_roundtrip s
    (s.flatMap escapeChar ++ '"' :: rest).length rest hlen
  simp only [encodeJsonString, List.cons_append, List.append_assoc, List.singleton_append,
    parseJsonString, if_pos rfl]
  exact hbody

/-- A serialized member list has at least one character per member. -/
theorem marshalPairs_length (l : List (List Char × List Char)) :
    l.length ≤ (marshalPairs l).length := by
  induction l with
  | nil => simp [marshalPairs]
  | cons p tl ih =>
      rcases p with ⟨k, v⟩
      cases tl with
      | nil => simp [marshalPairs, encodeJsonString]
      | cons q tl2 =>
          simp only [marshalPairs, encodeJsonString, List.length_append, List.length_cons,
            List.cons_append, List.length_cons] at *
          omega

/-- A nonempty serialized member list starts with a double quote. -/
theorem marshalPairs_cons_head (p : List Char × List Char)
    (tl : List (List Char × List Char)) :
    ∃ t, marshalPairs (p :: tl) = '"' :: t := by
  rcases p with ⟨k, v⟩
  cases tl with
  | nil => exact ⟨k.flatMap escapeChar ++ '"' :: ':' :: encodeJsonString v,
      by simp [marshalPairs, encodeJsonString]⟩
  | cons q tl2 => exact ⟨k.flatMap escapeChar ++ '"' :: ':' :: (encodeJsonString v ++
      ',' :: marshalPairs (q :: tl2)), by simp [marshalPairs, encodeJsonString]⟩

/-- The fuelled member parser undoes `marshalPairs` when the trailing input
starts with the closing brace. -/
theorem parsePairs_roundtrip (l : List (List Char × List Char)) : ∀ fuel (r : List Char),
    l ≠ [] → l.length ≤ fuel →
    parsePairs fuel (marshalPairs l ++ Char.ofNat 125 :: r) =
      some (l, Char.ofNat 125 :: r) := by
  induction l with
  | nil => intro fuel r hne _; exact absurd rfl hne
  | cons p tl ih =>
      intro fuel r _ hfuel
      rcases p with ⟨k, v⟩
      cases fuel with
      | zero => simp at hfuel
      | succ f =>
          cases tl with
          | nil =>
              simp only [marshalPairs, List.append_assoc, List.cons_append]
              simp only [parsePairs, parseJsonString_roundtrip]
              simp only [if_true]
              rw [if_neg (by decide : ¬(Char.ofNat 125) = ',')]
          | cons q tl2 =>
              simp only [marshalPairs, List.append_assoc, List.cons_append]
              simp only [parsePairs, parseJsonString_roundtrip]
              simp only [if_true]
              have hih := ih f r (by simp) (by simp at hfuel ⊢; omega)
              rw [hih]
              rfl

/-- Parsing a serialized object undoes `marshalMap`. -/
theorem parseMapObject_roundtrip (l : List (List Char × List Char)) (r : List Char) :
    parseMapObject (marshalMap l ++ r) = some (l, r) := by
  cases l with
  | nil =>
      simp only [marshalMap, marshalPairs, List.nil_append, List.cons_append,
        List.singleton_append]
      rfl
  | cons p tl =>
      rcases marshalPairs_cons_head p tl with ⟨t, ht⟩
      have hlen : (p :: tl).length ≤
          ((marshalPairs (p :: tl)) ++ Char.ofNat 125 :: r).length := by
        have h := marshalPairs_length (p :: tl)
        simp only [List.length_append, List.length_cons] at *
        omega
      have hpairs := parsePairs_roundtrip (p :: tl)
        ((marshalPairs (p :: tl)) ++ Char.ofNat 125 :: r).length r (by simp) hlen
      rw [ht] at hpairs
      simp only [List.cons_append] at hpairs
      simp only [marshalMap, List.cons_append, List.append_assoc, List.singleton_append]
      rw [ht]
      simp only [List.cons_append, List.nil_append]
      simp only [parseMapObject]
      rw [if_neg (fun h => absurd h.2 (by decide))]
      simp only [if_true]
      rw [hpairs]
      rfl

/-- UTF-8 encoded strings are byte lists. -/
theorem utf8Encode_lt (s : List Char) : ∀ b ∈ utf8Encode s, b < 256 := by
  intro b hb
  simp only [utf8Encode, List.mem_flatMap] at hb
  rcases hb with ⟨c, _, hbc⟩
  exact utf8EncodeChar_lt c b hbc

/-- The cache key decodes back to the Argument Set it was computed from:
the hex-encoded canonical JSON serialization is lossless. -/
theorem decodeCacheKey_paramsHashOf (params : ArgMap) :
    decodeCacheKey (paramsHashOf params).data = some params := by
  rw [show (paramsHashOf params).data = hexEncode (utf8Encode (marshalArgMap params))
    from rfl]
  have hmap := parseMapObject_roundtrip (params.map (fun kv => (kv.1.data, kv.2.data))) []
  rw [List.append_nil] at hmap
  simp only [decodeCacheKey, hexDecode_hexEncode _ (utf8Encode_lt _), utf8Decode_utf8Encode]
  rw [show marshalArgMap params = marshalMap (params.map (fun kv => (kv.1.data, kv.2.data)))
    from rfl]
  simp only [hmap, List.map_map]
  have hid : params.map ((fun kv : List Char × List Char => (String.mk kv.1, String.mk kv.2))
      ∘ (fun kv : String × String => (kv.1.data, kv.2.data))) = params := by
    apply List.map_id''
    intro kv
    rfl
  rw [hid]

/-- A row matches the key predicate exactly when its key columns equal the
probed key. -/
theorem keyMatches_iff (n h : String) (e : CacheEntry) :
    keyMatches n h e = true ↔ (e.workflowName = n ∧ e.paramsHash = h) := by
  simp [keyMatches]

/-- Deleting by primary key from a table with unique keys removes exactly
one row. -/
theorem filter_length_of_find? (n h : String) (l : List CacheEntry)
    (hnd : (l.map (fun e => (e.workflowName, e.paramsHash))).Nodup) :
    ∀ e, l.find? (keyMatches n h) = some e →
      (l.filter (fun x => !keyMatches n h x)).length + 1 = l.length := by
  induction l with
  | nil => intro e hf; simp at hf
  | cons x tl ih =>
      intro e hf
      simp only [List.map_cons, List.nodup_cons] at hnd
      rcases hm : keyMatches n h x with _ | _
      · simp only [List.find?_cons, hm] at hf
        simp only [List.filter_cons, hm, Bool.not_false, if_pos, List.length_cons]
        have := ih hnd.2 e hf
        omega
      · have hnone : ∀ y ∈ tl, keyMatches n h y = false := by
          intro y hy
          rcases hky : keyMatches n h y with _ | _
          · rfl
          · exfalso
            rcases (keyMatches_iff n h y).mp hky with ⟨hy1, hy2⟩
            rcases (keyMatches_iff n h x).mp hm with ⟨hx1, hx2⟩
            exact hnd.1 ((hx1.trans hy1.symm) ▸ (hx2.trans hy2.symm) ▸
              List.mem_map_of_mem (fun e => (e.workflowName, e.paramsHash)) hy)
        have hkeep : tl.filter (fun x => !keyMatches n h x) = tl := by
          apply List.filter_eq_self.mpr
          intro y hy
          simp [hnone y hy]
        simp only [List.filter_cons, hm, Bool.not_true, if_neg, List.length_cons, hkeep]
        simp

/-- Claim C1: on an enabled cache with unique primary keys, `Get` returns a miss
when no row has the probed key; when the row exists but its age exceeds the
TTL it is deleted (the row count drops by one) and a miss is returned, so
an expired row is never served; otherwise the stored result is returned
with `found = true`. -/
theorem cache_get_lazy_expiry (c : CacheClient) (now : Int) (name : String) (params : ArgMap)
    (hen : c.enabled = true)
    (hnd : (c.db.map (fun e => (e.workflowName, e.paramsHash))).Nodup) :
    (c.db.find? (keyMatches name (paramsHashOf params)) = none →
        c.Get now name params = (("", false), c)) ∧
    (∀ e, c.db.find? (keyMatches name (paramsHashOf params)) = some e →
      (now - e.createdAt > c.ttl →
          (c.Get now name params).1 = ("", false) ∧
          (c.Get now name params).2.db.length + 1 = c.db.length) ∧
      (¬now - e.createdAt > c.ttl →
          c.Get now name params = ((e.result, true), c))) := by
  constructor
  · intro hf
    simp only [CacheClient.Get, hen, Bool.not_true, Bool.false_eq_true, if_false, hf]
  · intro e hf
    constructor
    · intro ht
      simp only [CacheClient.Get, hen, Bool.not_true, Bool.false_eq_true, if_false, hf,
        if_pos ht]
      exact ⟨by simp, filter_length_of_find? name (paramsHashOf params) c.db hnd e hf⟩
    · intro ht
      simp only [CacheClient.Get, hen, Bool.not_true, Bool.false_eq_true, if_false, hf,
        if_neg ht]

/-- Witness for C1 at a concrete one-row cache: a probe for an absent key
misses; the stored row is returned while fresh and is deleted (row count
one to zero) once its age exceeds the 60-second TTL. -/
theorem cache_get_lazy_expiry_witness :
    (CacheClient.Get ⟨[⟨"t", paramsHashOf [("one", "1")], "x", "r", 0⟩], true, 60⟩
        61 "t" [("one", "1")]).1 = ("", false) ∧
    (CacheClient.Get ⟨[⟨"t", paramsHashOf [("one", "1")], "x", "r", 0⟩], true, 60⟩
        61 "t" [("one", "1")]).2.db.length + 1 = 1 ∧
    CacheClient.Get ⟨[⟨"t", paramsHashOf [("one", "1")], "x", "r", 0⟩], true, 60⟩
        60 "t" [("one", "1")] =
      (("r", true), ⟨[⟨"t", paramsHashOf [("one", "1")], "x", "r", 0⟩], true, 60⟩) ∧
    CacheClient.Get ⟨[⟨"t", paramsHashOf [("one", "1")], "x", "r", 0⟩], true, 60⟩
        61 "t" [("two", "2")] =
      (("", false), ⟨[⟨"t", paramsHashOf [("one", "1")], "x", "r", 0⟩], true, 60⟩) := by
  have h := cache_get_lazy_expiry
    ⟨[⟨"t", paramsHashOf [("one", "1")], "x", "r", 0⟩], true, 60⟩
    61 "t" [("one", "1")] rfl (by simp)
  have h60 := cache_get_lazy_expiry
    ⟨[⟨"t", paramsHashOf [("one", "1")], "x", "r", 0⟩], true, 60⟩
    60 "t" [("one", "1")] rfl (by simp)
  have hmiss := cache_get_lazy_expiry
    ⟨[⟨"t", paramsHashOf [("one", "1")], "x", "r", 0⟩], true, 60⟩
    61 "t" [("two", "2")] rfl (by simp)
  refine ⟨((h.2 _ rfl).1 (by decide)).1, ((h.2 _ rfl).1 (by decide)).2, ?_, ?_⟩
  · exact (h60.2 _ rfl).2 (by decide)
  · exact hmiss.1 (by decide)

/-- Claim C5: on an enabled cache, clearing with the empty name removes every
row and reports the former row count, while clearing a non-empty name
removes exactly the rows of that workflow, reports their count (0 when
there are none, with no error), and leaves the rows of other workflows
unchanged. -/
theorem cache_clear_scoped (c : CacheClient) (name : String) (hen : c.enabled = true) :
    c.Clear "" = ((c.db.length : Int), { c with db := [] }) ∧
    (name ≠ "" →
      c.Clear name =
        (((c.db.filter (fun e => e.workflowName == name)).length : Int),
          { c with db := c.db.filter (fun e => !(e.workflowName == name)) })) := by
  constructor
  · simp only [CacheClient.Clear, hen, Bool.not_true, Bool.false_eq_true, if_false]
    rfl
  · intro hname
    have : (name == "") = false := by
      simp only [beq_eq_false_iff_ne, ne_eq]
      exact hname
    simp only [CacheClient.Clear, hen, Bool.not_true, Bool.false_eq_true, if_false, this]

/-- Witness for C5 on a two-tool cache: scoped clearing removes only the
named tool's row and reports 1, leaving the other row; clearing with the
empty name removes both rows and reports 2; a scoped clear for an unknown
tool reports 0 without error. -/
theorem cache_clear_scoped_witness :
    CacheClient.Clear ⟨[⟨"a", "h1", "p", "r1", 0⟩, ⟨"b", "h2", "q", "r2", 0⟩], true, 60⟩ "a" =
      (1, ⟨[⟨"b", "h2", "q", "r2", 0⟩], true, 60⟩) ∧
    CacheClient.Clear ⟨[⟨"a", "h1", "p", "r1", 0⟩, ⟨"b", "h2", "q", "r2", 0⟩], true, 60⟩ "" =
      (2, ⟨[], true, 60⟩) ∧
    CacheClient.Clear ⟨[⟨"a", "h1", "p", "r1", 0⟩, ⟨"b", "h2", "q", "r2", 0⟩], true, 60⟩ "z" =
      (0, ⟨[⟨"a", "h1", "p", "r1", 0⟩, ⟨"b", "h2", "q", "r2", 0⟩], true, 60⟩) := by
  have ha := cache_clear_scoped
    ⟨[⟨"a", "h1", "p", "r1", 0⟩, ⟨"b", "h2", "q", "r2", 0⟩], true, 60⟩ "a" rfl
  have hz := cache_clear_scoped
    ⟨[⟨"a", "h1", "p", "r1", 0⟩, ⟨"b", "h2", "q", "r2", 0⟩], true, 60⟩ "z" rfl
  refine ⟨?_, ?_, ?_⟩
  · have := ha.2 (by decide)
    simpa using this
  · simpa using ha.1
  · have := hz.2 (by decide)
    simpa using this

/-- Claim C6: on a disabled cache client, all three operations are no-ops that
touch no state and report nothing found, no error, and zero rows removed. -/
theorem cache_disabled_noop (c : CacheClient) (now : Int) (name : String) (params : ArgMap)
    (result : String) (hdis : c.enabled = false) :
    c.Get now name params = (("", false), c) ∧
    c.Set now name params result = c ∧
    c.Clear name = (0, c) := by
  refine ⟨?_, ?_, ?_⟩ <;>
    simp [CacheClient.Get, CacheClient.Set, CacheClient.Clear, hdis]

/-- Witness for C6 on a concrete disabled client holding a row. -/
theorem cache_disabled_noop_witness :
    CacheClient.Get ⟨[⟨"a", "h", "p", "r", 0⟩], false, 60⟩ 5 "a" [("k", "v")] =
      (("", false), ⟨[⟨"a", "h", "p", "r", 0⟩], false, 60⟩) ∧
    CacheClient.Set ⟨[⟨"a", "h", "p", "r", 0⟩], false, 60⟩ 5 "a" [("k", "v")] "res" =
      ⟨[⟨"a", "h", "p", "r", 0⟩], false, 60⟩ ∧
    CacheClient.Clear ⟨[⟨"a", "h", "p", "r", 0⟩], false, 60⟩ "a" =
      (0, ⟨[⟨"a", "h", "p", "r", 0⟩], false, 60⟩) :=
  cache_disabled_noop ⟨[⟨"a", "h", "p", "r", 0⟩], false, 60⟩ 5 "a" [("k", "v")] "res" rfl

/-- A cache hit leaves the cache client unchanged. -/
theorem get_hit_state (c : CacheClient) (now : Int) (n : String) (p : ArgMap)
    (h : (c.Get now n p).1.2 = true) : (c.Get now n p).2 = c := by
  rcases hc : c.enabled with _ | _
  · simp [CacheClient.Get, hc] at h
  · rcases hf : c.db.find? (keyMatches n (paramsHashOf p)) with _ | e
    · simp [CacheClient.Get, hc, hf] at h
    · by_cases ht : now - e.createdAt > c.ttl
      · simp [CacheClient.Get, hc, hf, if_pos ht] at h
      · simp [CacheClient.Get, hc, hf, if_neg ht]

/-- Claim C3: the execution disposition is a pure function of the override flag:
`force_rerun = false` selects attach-or-start (reuse policy
allow-duplicate-failed-only with conflict policy use-existing) and
`force_rerun = true` selects force-new (allow-duplicate with
terminate-existing); whenever the handler asks the engine to execute, the
options carry exactly the policies selected from the invocation's flag. -/
theorem policy_selector_decision_table :
    choosePolicies false = (ReusePolicy.allowDuplicateFailedOnly, ConflictPolicy.useExisting) ∧
    choosePolicies true = (ReusePolicy.allowDuplicate, ConflictPolicy.terminateExisting) ∧
    ∀ (env : ToolEnv) (cache : Option CacheClient) (now : Int) (args : WorkflowParams)
      (opts : StartWorkflowOptions),
      (handleWorkflowTool env cache now args).engineOpts = some opts →
      (opts.reusePolicy, opts.conflictPolicy) = choosePolicies args.forceRerun := by
  refine ⟨rfl, rfl, ?_⟩
  intro env cache now args opts h
  have hafter : ∀ cc : Option CacheClient,
      (handleAfterCache env cc now args).engineOpts = some opts →
      (opts.reusePolicy, opts.conflictPolicy) = choosePolicies args.forceRerun := by
    intro cc hh
    simp only [handleAfterCache] at hh
    rcases htemp : env.tempClientAvailable with _ | _
    · simp [htemp] at hh
    · simp only [htemp, Bool.not_true, Bool.false_eq_true, if_false] at hh
      rcases hid : computeWorkflowID env.workflow args.params with e | wid
      · simp [hid] at hh
      · simp only [hid] at hh
        rcases heng : env.engine
            { taskQueue := if env.workflow.taskQueue == "" then env.defaultTaskQueue
                else env.workflow.taskQueue,
              id := wid, reusePolicy := (choosePolicies args.forceRerun).1,
              conflictPolicy := (choosePolicies args.forceRerun).2 } with e | e | result <;>
          · simp only [heng] at hh
            rw [← Option.some.inj hh]
  simp only [handleWorkflowTool] at h
  rcases hce : env.cacheEnabled with _ | _
  · rw [hce] at h
    dsimp only at h
    exact hafter cache h
  · rw [hce] at h
    rcases cache with _ | c
    · dsimp only at h
      exact hafter none h
    · dsimp only at h
      by_cases hfound : (c.Get now env.name args.params).1.2 = true
      · rw [if_pos hfound] at h
        simp at h
      · rw [if_neg hfound] at h
        exact hafter (some (c.Get now env.name args.params).2) h

/-- Witness for C3: a concrete invocation with caching off reaches the
engine, and the options it carries are the attach-or-start pair selected
for `force_rerun = false`. -/
theorem policy_selector_decision_table_witness :
    (handleWorkflowTool
        ⟨"t", ⟨"q", ""⟩, true, fun _ => EngineOutcome.completed "res", false, "dq"⟩
        none 0 ⟨[], false⟩).engineOpts =
      some ⟨"q", "", ReusePolicy.allowDuplicateFailedOnly, ConflictPolicy.useExisting⟩ ∧
    ((⟨"q", "", ReusePolicy.allowDuplicateFailedOnly, ConflictPolicy.useExisting⟩ :
        StartWorkflowOptions).reusePolicy,
      (⟨"q", "", ReusePolicy.allowDuplicateFailedOnly, ConflictPolicy.useExisting⟩ :
        StartWorkflowOptions).conflictPolicy) = choosePolicies false :=
  ⟨rfl,
    policy_selector_decision_table.2.2
      ⟨"t", ⟨"q", ""⟩, true, fun _ => EngineOutcome.completed "res", false, "dq"⟩
      none 0 ⟨[], false⟩
      ⟨"q", "", ReusePolicy.allowDuplicateFailedOnly, ConflictPolicy.useExisting⟩ rfl⟩

/-- Claim C4: when caching is enabled and the cache client exists, the handler
consults the Result Cache first, and on a hit returns the cached result at
once with the cache unchanged and without ever calling the engine — for
either value of `force_rerun`, and even when the engine client is
unavailable. -/
theorem cache_hit_bypasses_engine (env : ToolEnv) (c : CacheClient) (now : Int)
    (args : WorkflowParams) (hen : env.cacheEnabled = true)
    (hhit : (c.Get now env.name args.params).1.2 = true) :
    handleWorkflowTool env (some c) now args =
      { response := (c.Get now env.name args.params).1.1, engineOpts := none,
        cache := some c } := by
  simp only [handleWorkflowTool, hen]
  rw [if_pos hhit, get_hit_state c now env.name args.params hhit]

/-- Witness for C4: with `force_rerun = true` and an unavailable engine
client, a concrete cached invocation still returns the cached result and
never calls the engine. -/
theorem cache_hit_bypasses_engine_witness :
    handleWorkflowTool
        ⟨"t", ⟨"q", ""⟩, false, fun _ => EngineOutcome.startErr "unreachable", true, "dq"⟩
        (some ⟨[⟨"t", paramsHashOf [("one", "1")], "x", "r", 0⟩], true, 60⟩)
        0 ⟨[("one", "1")], true⟩ =
      { response := "r", engineOpts := none,
        cache := some ⟨[⟨"t", paramsHashOf [("one", "1")], "x", "r", 0⟩], true, 60⟩ } :=
  cache_hit_bypasses_engine
    ⟨"t", ⟨"q", ""⟩, false, fun _ => EngineOutcome.startErr "unreachable", true, "dq"⟩
    ⟨[⟨"t", paramsHashOf [("one", "1")], "x", "r", 0⟩], true, 60⟩
    0 ⟨[("one", "1")], true⟩ rfl rfl

/-- Claim C7 counterexample: swapping the two explicit arguments at the call
site changes the digest, because the FNV-1 hasher consumes the arguments'
bytes in call order — so `hash(x, y) = hash(y, x)` is false in general. -/
theorem hash_args_not_commutative :
    (hashWorkflowArgs [("one", "1"), ("two", "2")] [JVal.str "1", JVal.str "2"]).1 ≠
      (hashWorkflowArgs [("one", "1"), ("two", "2")] [JVal.str "2", JVal.str "1"]).1 := by
  decide

/-- Claim C7 as amended: with explicit arguments, the digest depends only on the
canonical content of those arguments in their call-site order — never on
the other entries of the surrounding Argument Set. -/
theorem hash_explicit_args_content_only (A B : ArgMap) (l : List JVal) (hne : l ≠ []) :
    hashWorkflowArgs A l = hashWorkflowArgs B l := by
  have hempty : l.isEmpty = false := by
    cases l with
    | nil => exact absurd rfl hne
    | cons x xs => rfl
  simp [hashWorkflowArgs, hempty]

/-- Witness for C7 (amended): the digest of one explicit argument is the
same under two different surrounding Argument Sets. -/
theorem hash_explicit_args_content_only_witness :
    ([JVal.str "x"] ≠ ([] : List JVal)) ∧
    hashWorkflowArgs [("a", "1")] [JVal.str "x"] =
      hashWorkflowArgs [("b", "2"), ("c", "3")] [JVal.str "x"] :=
  ⟨by simp,
    hash_explicit_args_content_only [("a", "1")] [("b", "2"), ("c", "3")]
      [JVal.str "x"] (by simp)⟩

/-- Claim C8: with zero arguments the hash cannot fail: it hashes the entire
Argument Set, returning the same digest as an explicit call on the whole
set (`hash` equals `hash .`) while raising the diagnostic flag, which an
explicit call does not raise. -/
theorem hash_zero_args_hashes_all (A : ArgMap) :
    hashWorkflowArgs A [] = ((hashWorkflowArgs A [JVal.map A]).1, true) ∧
    (hashWorkflowArgs A [JVal.map A]).2 = false ∧
    renderNode A (TNode.hashCall []) = renderNode A (TNode.hashCall [TArg.dot]) := by
  refine ⟨?_, rfl, ?_⟩
  · simp [hashWorkflowArgs]
  · simp [renderNode, evalHashArg, hashWorkflowArgs]

/-- Claim C9: deriving the execution identity fails exactly on a template parse
error: a parse error is returned as-is, a parsed template always renders
successfully, and a reference to a variable missing from the Argument Set
renders as the visible sentinel `<no value>` instead of failing. -/
theorem workflow_id_error_only_on_parse (workflow : WorkflowDef) (params : ArgMap) :
    (∀ e, parseTemplate workflow.workflowIDRecipe = Except.error e →
        computeWorkflowID workflow params = Except.error e) ∧
    (∀ nodes, parseTemplate workflow.workflowIDRecipe = Except.ok nodes →
        computeWorkflowID workflow params =
          Except.ok (String.mk (renderTemplate params nodes))) ∧
    (∀ name, lookupParam params name = none →
        renderNode params (TNode.pipe (TArg.field name)) = noValueMarker.data) := by
  refine ⟨?_, ?_, ?_⟩
  · intro e he
    simp [computeWorkflowID, he]
  · intro nodes hok
    simp [computeWorkflowID, hok]
  · intro name hname
    simp [renderNode, hname]

/-- Witness for C9: an unclosed action makes parsing and derivation fail
with the same error; a well-formed recipe referencing a missing variable
derives an identity containing the sentinel instead of failing. -/
theorem workflow_id_error_only_on_parse_witness :
    computeWorkflowID ⟨"", "x\x7b\x7b"⟩ [("one", "1")] =
      Except.error "unrecognized action" ∧
    computeWorkflowID ⟨"", "id_\x7b\x7b .one \x7d\x7d_\x7b\x7b .missing \x7d\x7d"⟩
      [("one", "1")] = Except.ok "id_1_<no value>" ∧
    renderNode [("one", "1")] (TNode.pipe (TArg.field "missing")) = noValueMarker.data := by
  refine ⟨?_, ?_, ?_⟩
  · exact (workflow_id_error_only_on_parse ⟨"", "x\x7b\x7b"⟩ [("one", "1")]).1
      "unrecognized action" rfl
  · have h := (workflow_id_error_only_on_parse
      ⟨"", "id_\x7b\x7b .one \x7d\x7d_\x7b\x7b .missing \x7d\x7d"⟩ [("one", "1")]).2.1
    exact (h _ rfl).trans (by rfl)
  · exact (workflow_id_error_only_on_parse ⟨"", ""⟩ [("one", "1")]).2.2 "missing" rfl

mutual
/-- On homogeneous trees the code's sanitizer agrees with the spec's
redaction, message case. -/
theorem sanitizeMsg_eq_spec : ∀ m : PMsg, homogMsg m = true → sanitizeMsg m = redactSpecMsg m
  | .mk ty fields, h => by
      simp only [sanitizeMsg, redactSpecMsg]
      exact congrArg (PMsg.mk ty)
        (sanitizeFields_eq_spec fields (by simpa [homogMsg] using h))
termination_by structural m => m

/-- On homogeneous trees the code's sanitizer agrees with the spec's
redaction, field-list case. -/
theorem sanitizeFields_eq_spec : ∀ l : List PField, homogFields l = true →
    sanitizeFields l = redactSpecFields l
  | [], _ => rfl
  | f :: fs, h => by
      simp only [homogFields, Bool.and_eq_true] at h
      simp only [sanitizeFields, redactSpecFields]
      rw [sanitizeField_eq_spec f h.1, sanitizeFields_eq_spec fs h.2]
termination_by structural l => l

/-- On homogeneous trees the code's sanitizer agrees with the spec's
redaction, single-field case. -/
theorem sanitizeField_eq_spec : ∀ f : PField, homogField f = true →
    sanitizeField f = redactSpecField f
  | .scalarF, _ => rfl
  | .msgF none, _ => rfl
  | .msgF (some m), h => by
      simp only [homogField] at h
      simp only [sanitizeField, redactSpecField]
      rcases hpay : isPayloadName m.typeName with _ | _
      · rw [show isPayload m = isPayloadName m.typeName from rfl, hpay]
        simp only [Bool.false_eq_true, if_false]
        rw [sanitizeMsg_eq_spec m h]
      · rw [show isPayload m = isPayloadName m.typeName from rfl, hpay]
        rfl
  | .listScalarF, _ => rfl
  | .listMsgF ty items, h => by
      simp only [homogField] at h
      simp only [sanitizeField, redactSpecField]
      rcases hpay : isPayloadName ty with _ | _
      · simp only [Bool.false_eq_true, if_false]
        rw [sanitizeListLoop_no_payload ty hpay items h []]
        simp
      · simp only [if_pos]
        cases items with
        | nil => rfl
        | cons m rest =>
            simp only [homogList, Bool.and_eq_true, beq_iff_eq] at h
            have : isPayload m = true := by
              rw [show isPayload m = isPayloadName m.typeName from rfl, h.1.1, hpay]
            simp [sanitizeListLoop, this]
  | .mapScalarF, _ => rfl
  | .mapMsgF ty entries, h => by
      simp only [homogField] at h
      simp only [sanitizeField, redactSpecField]
      rw [sanitizeEntries_eq_spec entries h]
termination_by structural f => f

/-- The sanitizer's list loop over payload-free homogeneous items maps the
sanitizer over the items, keeping the accumulated items. -/
theorem sanitizeListLoop_no_payload : ∀ (ty : String), isPayloadName ty = false →
    ∀ l : List PMsg, homogList ty l = true → ∀ acc : List PMsg,
      sanitizeListLoop l acc = acc.reverse ++ redactSpecList l
  | _, _, [], _, acc => by simp [sanitizeListLoop, redactSpecList]
  | ty, hty, m :: rest, h, acc => by
      simp only [homogList, Bool.and_eq_true, beq_iff_eq] at h
      have hm : isPayload m = false := by
        rw [show isPayload m = isPayloadName m.typeName from rfl, h.1.1, hty]
      simp only [sanitizeListLoop, hm, Bool.false_eq_true, if_false, redactSpecList]
      rw [sanitizeListLoop_no_payload ty hty rest h.2 (sanitizeMsg m :: acc),
        sanitizeMsg_eq_spec m h.1.2]
      simp
termination_by structural _ _ l => l

/-- On homogeneous trees the code's sanitizer agrees with the spec's
redaction, map-entry case. -/
theorem sanitizeEntries_eq_spec : ∀ l : List PEntry, homogEntries l = true →
    sanitizeEntries l = redactSpecEntries l
  | [], _ => rfl
  | .mk k v :: rest, h => by
      simp only [homogEntries, Bool.and_eq_true] at h
      simp only [sanitizeEntries, redactSpecEntries,
        show isPayload v = isPayloadName v.typeName from rfl]
      rcases hpay : isPayloadName v.typeName with _ | _
      · simp only [Bool.false_eq_true, if_false]
        rw [sanitizeMsg_eq_spec v h.1, sanitizeEntries_eq_spec rest h.2]
      · simp only [if_pos]
        exact sanitizeEntries_eq_spec rest h.2
termination_by structural l => l
end

/-- Claim C2: on every type-homogeneous history tree, the sanitizer performs
exactly the spec's redaction: it visits every message-typed field
recursively, truncates list fields of payload-convention element type to
empty, removes exactly the matching entries of map fields while keeping
and recursing into the rest, clears matching singular message fields in
place and recurses into the others — with the convention the type-name
suffix test of `isPayloadName` — and always returns a tree. -/
theorem history_redaction_matches_spec (m : PMsg) (h : homogMsg m = true) :
    sanitizeMsg m = redactSpecMsg m :=
  sanitizeMsg_eq_spec m h

/-- Witness for C2 on a concrete homogeneous history event holding a
payload list, a payload map entry beside a non-payload one, a singular
payloads field, and a nested non-payload message wrapping a payload. -/
theorem history_redaction_matches_spec_witness :
    homogMsg (.mk "temporal.api.history.v1.HistoryEvent"
      [ .scalarF
      , .msgF (some (.mk "temporal.api.common.v1.Payloads"
          [.listMsgF "temporal.api.common.v1.Payload"
            [.mk "temporal.api.common.v1.Payload" []]]))
      , .listMsgF "temporal.api.common.v1.Payload" [.mk "temporal.api.common.v1.Payload" []]
      , .mapMsgF "temporal.api.common.v1.Payloads"
          [.mk "k" (.mk "temporal.api.common.v1.Payloads" []), .mk "j" (.mk "other.Type" [])]
      , .msgF (some (.mk "other.Inner"
          [.msgF (some (.mk "temporal.api.common.v1.Payload" []))])) ]) = true ∧
    sanitizeMsg (.mk "temporal.api.history.v1.HistoryEvent"
      [ .scalarF
      , .msgF (some (.mk "temporal.api.common.v1.Payloads"
          [.listMsgF "temporal.api.common.v1.Payload"
            [.mk "temporal.api.common.v1.Payload" []]]))
      , .listMsgF "temporal.api.common.v1.Payload" [.mk "temporal.api.common.v1.Payload" []]
      , .mapMsgF "temporal.api.common.v1.Payloads"
          [.mk "k" (.mk "temporal.api.common.v1.Payloads" []), .mk "j" (.mk "other.Type" [])]
      , .msgF (some (.mk "other.Inner"
          [.msgF (some (.mk "temporal.api.common.v1.Payload" []))])) ]) =
      redactSpecMsg (.mk "temporal.api.history.v1.HistoryEvent"
      [ .scalarF
      , .msgF (some (.mk "temporal.api.common.v1.Payloads"
          [.listMsgF "temporal.api.common.v1.Payload"
            [.mk "temporal.api.common.v1.Payload" []]]))
      , .listMsgF "temporal.api.common.v1.Payload" [.mk "temporal.api.common.v1.Payload" []]
      , .mapMsgF "temporal.api.common.v1.Payloads"
          [.mk "k" (.mk "temporal.api.common.v1.Payloads" []), .mk "j" (.mk "other.Type" [])]
      , .msgF (some (.mk "other.Inner"
          [.msgF (some (.mk "temporal.api.common.v1.Payload" []))])) ]) :=
  ⟨rfl,
    history_redaction_matches_spec (.mk "temporal.api.history.v1.HistoryEvent"
      [ .scalarF
      , .msgF (some (.mk "temporal.api.common.v1.Payloads"
          [.listMsgF "temporal.api.common.v1.Payload"
            [.mk "temporal.api.common.v1.Payload" []]]))
      , .listMsgF "temporal.api.common.v1.Payload" [.mk "temporal.api.common.v1.Payload" []]
      , .mapMsgF "temporal.api.common.v1.Payloads"
          [.mk "k" (.mk "temporal.api.common.v1.Payloads" []), .mk "j" (.mk "other.Type" [])]
      , .msgF (some (.mk "other.Inner"
          [.msgF (some (.mk "temporal.api.common.v1.Payload" []))])) ]) rfl⟩

/-- Claim C10: for the same tool name, the primary keys built from two canonical
argument maps coincide exactly when the maps are equal — the cache key is
an injective encoding, so a `Get` for one argument map can never land on a
row stored for a different one. -/
theorem cache_key_injective (tool : String) (A B : ArgMap)
    (_hA : keySorted A) (_hB : keySorted B) :
    ((tool, paramsHashOf A) = (tool, paramsHashOf B)) ↔ A = B := by
  constructor
  · intro h
    have hh : paramsHashOf A = paramsHashOf B := by
      simpa using congrArg Prod.snd h
    have hda := decodeCacheKey_paramsHashOf A
    rw [congrArg String.data hh, decodeCacheKey_paramsHashOf B] at hda
    exact (Option.some.inj hda).symm
  · intro h
    rw [h]

/-- Witness for C10 on two concrete singleton maps differing in a value:
their primary keys differ. -/
theorem cache_key_injective_witness :
    keySorted [("a", "1")] ∧ keySorted [("a", "2")] ∧
    ((("t", paramsHashOf [("a", "1")]) = ("t", paramsHashOf [("a", "2")])) ↔
      ([("a", "1")] : ArgMap) = [("a", "2")]) :=
  ⟨by simp [keySorted], by simp [keySorted],
    cache_key_injective "t" [("a", "1")] [("a", "2")]
      (by simp [keySorted]) (by simp [keySorted])⟩
